import Mathlib

/-!
Shallow embedding of the wheel-spin backend (src/index.js and the
metaobject-backed variant at the top of src/unnamed/part_000).

Pure fragments of the JavaScript are translated into executable Lean
definitions.  The external Shopify stores are modelled by explicit values
threaded through the functions: the customer-lookup result, the prize
catalog snapshot (an ordered list of prize records, each carrying the
counters stored in its backing metaobject), the sample `u` of
`Math.random()`, and the current timestamp `now`.  JavaScript numbers are
modelled with `Int` for counters and `ℚ` for probability weights.
-/

namespace WheelSpin

/-! ### JavaScript string helpers, on explicit character lists

`String.prototype.includes`, `.startsWith`, `.trim`, `.split(',')`,
`.toLowerCase` and first-occurrence `.replace` are reimplemented on
`List Char` so that every definition is executable by the kernel.
-/

/-- `startsWithList hay pat` : does `hay` start with `pat`? -/
def startsWithList : List Char → List Char → Bool
  | _, [] => true
  | [], _ :: _ => false
  | a :: as, b :: bs => a == b && startsWithList as bs

/-- `containsSub needle hay` : JS `hay.includes(needle)`. -/
def containsSub (needle : List Char) : List Char → Bool
  | [] => needle.isEmpty
  | c :: rest => startsWithList (c :: rest) needle || containsSub needle rest

/-- JS `s.includes(pat)`. -/
def strIncludes (s pat : String) : Bool :=
  containsSub pat.data s.data

/-- JS `s.startsWith(pat)`. -/
def strStartsWith (s pat : String) : Bool :=
  startsWithList s.data pat.data

/-- ASCII whitespace, the characters relevant to the tags handled here. -/
def isWs (c : Char) : Bool :=
  c == ' ' || c == '\t' || c == '\n' || c == '\r'

/-- JS `s.trim()`. -/
def jsTrim (s : String) : String :=
  ⟨((s.data.dropWhile isWs).reverse.dropWhile isWs).reverse⟩

/-- JS `s.toLowerCase()` (ASCII case folding via `Char.toLower`). -/
def jsToLower (s : String) : String :=
  ⟨s.data.map Char.toLower⟩

/-- Helper for `jsReplace`: replace the first occurrence of `pat`. -/
def replaceFirstAux (pat repl : List Char) : List Char → List Char
  | [] => if pat.isEmpty then repl else []
  | c :: rest =>
    if startsWithList (c :: rest) pat then repl ++ (c :: rest).drop pat.length
    else c :: replaceFirstAux pat repl rest

/-- JS `s.replace(pat, repl)` with a string pattern: first occurrence only. -/
def jsReplace (s pat repl : String) : String :=
  ⟨replaceFirstAux pat.data repl.data s.data⟩

/-- Helper for `splitComma`: accumulate the current (reversed) segment. -/
def splitCommaAux (acc : List Char) : List Char → List String
  | [] => [⟨acc.reverse⟩]
  | c :: rest =>
    if c == ',' then (⟨acc.reverse⟩ : String) :: splitCommaAux [] rest
    else splitCommaAux (c :: acc) rest

/-- JS `s.split(',')`. -/
def splitComma (s : String) : List String :=
  splitCommaAux [] s.data

/-! ### Participant model (customer record held by the participant store) -/

/-- A Shopify customer as the spin endpoint sees it: the persisted tag
string is the played-marker plus recorded outcome.  A customer with no
tags is modelled with `tags = ""` (JS treats `""`, `null` and `undefined`
alike via falsiness in `hasPlayedWheel`/`getPrizeFromTags`). -/
structure Customer where
  id : Nat
  tags : String
  note : String
deriving Repr, DecidableEq

/-- The recorded outcome parsed back out of a customer's tags:
`{ label, date, number }` (src/index.js `getPrizeFromTags`). -/
structure PrizeInfo where
  label : String
  date : Option String
  number : Option String
deriving Repr, DecidableEq

/-- src/index.js `hasPlayedWheel`: the persisted played-marker test. -/
def hasPlayedWheel (c : Customer) : Bool :=
  if c.tags = "" then false
  else
    let tags := jsToLower c.tags
    strIncludes tags "wheel_played" || strIncludes tags "wheel_prize:"

/-- src/index.js `getPrizeFromTags`: recover the recorded outcome
(label, date, number) from the persisted tag string. -/
def getPrizeFromTags (c : Customer) : Option PrizeInfo :=
  if c.tags = "" then none
  else
    let tags := (splitComma c.tags).map jsTrim
    match tags.find? (fun t => strStartsWith t "Spin Prize:") with
    | none => none
    | some spTag =>
      some ⟨jsTrim (jsReplace spTag "Spin Prize:" ""),
            (tags.find? (fun t => strStartsWith t "Spin Date:")).map
              (fun t => jsTrim (jsReplace t "Spin Date:" "")),
            (tags.find? (fun t => strStartsWith t "Prize Number:")).map
              (fun t => jsTrim (jsReplace t "Prize Number:" ""))⟩

/-! ### Prize catalog model

One record per prize, as loaded by `loadPrizesFromMetaobjects`
(src/unnamed/part_000) and as stored in the backing metaobject.
`remaining = none` models the unbounded case (`null` in index.js, the
`-1` sentinel in the metaobject store, which the loader maps back to the
absent case).  `lastUpdated` is the metaobject's `last_updated` field. -/
structure Prize where
  id : String
  label : String
  prob : ℚ
  max : Option Int
  remaining : Option Int
  totalDistributed : Int
  metaobjectId : String
  lastUpdated : String
deriving Repr, DecidableEq

/-- The availability test used by the spin filter and by the stats
endpoints: `p.remaining === null || p.remaining > 0`. -/
def isAvailable (p : Prize) : Bool :=
  match p.remaining with
  | none => true
  | some n => decide (0 < n)

/-- `PRIZES.filter(p => p.remaining === null || p.remaining > 0)`. -/
def availableOf (cat : List Prize) : List Prize :=
  cat.filter isAvailable

/-- `available.reduce((sum, p) => sum + p.prob, 0)`. -/
def totalProb (l : List Prize) : ℚ :=
  l.foldl (fun s p => s + p.prob) 0

/-- The selection loop of the spin handler: `cumulative` accumulates the
weights; the first entry with `r <= cumulative` is chosen; `chosen` holds
the initial value `available[available.length - 1]`, returned when no
entry satisfies the test. -/
def selectLoop (r : ℚ) (acc : ℚ) (chosen : Prize) : List Prize → Prize
  | [] => chosen
  | p :: rest =>
    if r ≤ acc + p.prob then p else selectLoop r (acc + p.prob) chosen rest

/-- Each available entry paired with the cumulative weight through it,
starting from `acc` (used to state the declarative form of the draw). -/
def cumFrom (acc : ℚ) : List Prize → List (Prize × ℚ)
  | [] => []
  | p :: rest => (p, acc + p.prob) :: cumFrom (acc + p.prob) rest

/-- Modelled from the spec wording of the weighted draw, for comparison
with the source loop: "the first entry whose cumulative weight ≥ r is
chosen; if floating-point error causes no entry to satisfy this, choose
the last available entry deterministically". -/
def chooseWeightedSpec (avail : List Prize) (r : ℚ) : Option Prize :=
  match (cumFrom 0 avail).find? (fun pc => decide (r ≤ pc.2)) with
  | some pc => some pc.1
  | none => avail.getLast?

/-- The chosen prize of the weighted-draw branch: `r = u * totalProb` with
`u` the `Math.random()` sample; `none` when the available subset is empty
(the handler then takes the fallback branch instead). -/
def drawChosen (cat : List Prize) (u : ℚ) : Option Prize :=
  match availableOf cat with
  | [] => none
  | a :: rest =>
    some (selectLoop (u * totalProb (a :: rest)) 0 (rest.getLastD a) (a :: rest))

/-- `PRIZES.find(p => p.id === 'better_luck') || PRIZES[PRIZES.length - 1]`
(src/unnamed/part_000, fallback branch). -/
def fallbackPrize (cat : List Prize) : Option Prize :=
  match cat.find? (fun p => p.id == "better_luck") with
  | some fb => some fb
  | none => cat.getLast?

/-- Effect of `updatePrizeAfterSpin` (src/unnamed/part_000) on the chosen
prize's backing record: `remaining = Math.max(0, remaining - 1)` when
capped, `totalDistributed + 1` unconditionally, and a fresh
`last_updated` stamp. -/
def applyAward (now : String) (p : Prize) : Prize :=
  match p.remaining with
  | some n =>
    { p with remaining := some (max 0 (n - 1)),
             totalDistributed := p.totalDistributed + 1,
             lastUpdated := now }
  | none =>
    { p with totalDistributed := p.totalDistributed + 1,
             lastUpdated := now }

/-- The catalog after awarding the prize whose backing metaobject is
`moId`: `updatePrizeMetaobject` writes exactly that record. -/
def awardPrize (cat : List Prize) (moId : String) (now : String) : List Prize :=
  cat.map (fun p => if p.metaobjectId = moId then applyAward now p else p)

/-- The literal field-update list built by `updatePrizeAfterSpin`
(src/unnamed/part_000 lines 295-317), in source order. -/
def updatesAfterSpin (now : String) (p : Prize) : List (String × String) :=
  (match p.remaining with
   | some n =>
     [("remaining_count", toString (max 0 (n - 1))),
      ("is_available", toString (decide (0 < max 0 (n - 1))))]
   | none => [("is_available", "true")]) ++
  [("total_distributed", toString (p.totalDistributed + 1)),
   ("last_updated", now)]

/-- `prize.max === null || prize.max > 0` (reset loop). -/
def maxAvailFlag (p : Prize) : Bool :=
  match p.max with
  | none => true
  | some m => decide (0 < m)

/-- The literal field-update list written per prize by the reset endpoint
(src/unnamed/part_000 lines 399-409): `-1` is the unbounded sentinel. -/
def resetWriteFields (p : Prize) (now : String) : List (String × String) :=
  [("remaining_count", toString (match p.max with | none => (-1 : Int) | some m => m)),
   ("is_available", toString (maxAvailFlag p)),
   ("last_updated", now)]

/-- Effect of the reset endpoint on one prize record, at the parsed level:
`remaining_count` is written as `max` (with `-1` for unbounded, which the
loader reads back as the absent case), so the loaded view has
`remaining = max`; `total_distributed` is not among the written fields. -/
def resetPrize (now : String) (p : Prize) : Prize :=
  { p with remaining := p.max, lastUpdated := now }

/-- `/admin/reset-prizes` body: reset every prize's remaining to its cap. -/
def resetInventory (cat : List Prize) (now : String) : List Prize :=
  cat.map (resetPrize now)

/-- One row of the `/admin/stats` response (src/unnamed/part_000; the
percentage display string for `probability` is elided in favour of the
underlying weight). -/
structure PrizeStats where
  id : String
  label : String
  probability : ℚ
  maxCount : Option Int
  remaining : Option Int
  totalDistributed : Int
  isAvailable : Bool
deriving Repr, DecidableEq

/-- The `/admin/stats` projection of a catalog. -/
def statsOf (cat : List Prize) : List PrizeStats :=
  cat.map (fun p =>
    ⟨p.id, p.label, p.prob, p.max, p.remaining, p.totalDistributed, isAvailable p⟩)

/-! ### The spin endpoint -/

/-- The three response shapes of `POST /spin`: the 400 validation error,
the already-played replay (`{ alreadyPlayed: true, prize }`), and a win
(`{ prize: { id?, label, number } }`; the fallback branch omits `id`). -/
inductive SpinResult where
  | validationError (msg : String)
  | alreadyPlayed (prize : PrizeInfo)
  | won (id : Option String) (label : String) (number : Int)
deriving Repr, DecidableEq

/-- The draw-and-award part of the spin handler, given the catalog
snapshot: filter availability, either take the deterministic fallback
branch or the weighted draw, then apply `updatePrizeAfterSpin` to the
selected prize.  Returns `none` only for an empty catalog, which
`loadPrizesFromMetaobjects` rules out by throwing at load time. -/
def spinDraw (cat : List Prize) (u : ℚ) (now : String) :
    Option (SpinResult × List Prize) :=
  match drawChosen cat u with
  | none =>
    match fallbackPrize cat with
    | none => none
    | some fb =>
      some (.won none fb.label (fb.totalDistributed + 1),
            awardPrize cat fb.metaobjectId now)
  | some chosen =>
    some (.won (some chosen.id) chosen.label (chosen.totalDistributed + 1),
          awardPrize cat chosen.metaobjectId now)

/-- `POST /spin`: phone validation, participation gate, then draw.
`phoneRaw` is `req.body.phone` (`none` for a missing field), `lookup`
the result of `findCustomerByPhone`, `cat` the catalog snapshot, `u` the
`Math.random()` sample, `now` the timestamp.  The second component of the
result is the catalog after the call. -/
def spin (phoneRaw : Option String) (lookup : Option Customer)
    (cat : List Prize) (u : ℚ) (now : String) :
    Option (SpinResult × List Prize) :=
  let phone := jsTrim (phoneRaw.getD "")
  if phone = "" then some (.validationError "phone required", cat)
  else
    match lookup with
    | some customer =>
      if hasPlayedWheel customer then
        some (.alreadyPlayed
          ((getPrizeFromTags customer).getD ⟨"Already Played", none, none⟩), cat)
      else spinDraw cat u now
    | none => spinDraw cat u now

/-! ### Admin endpoints and their key gate

`if (adminKey !== process.env.ADMIN_RESET_KEY) return 403`.  `Option
String` models a possibly-undefined JS value on both sides of the strict
comparison. -/

/-- `POST /admin/reset-prizes`. -/
def resetPrizesEndpoint (adminKey envKey : Option String)
    (cat : List Prize) (now : String) : Except String (List Prize) :=
  if adminKey ≠ envKey then .error "Unauthorized"
  else .ok (resetInventory cat now)

/-- `GET /admin/stats`. -/
def statsEndpoint (adminKey envKey : Option String)
    (cat : List Prize) : Except String (List PrizeStats) :=
  if adminKey ≠ envKey then .error "Unauthorized"
  else .ok (statsOf cat)

/-! ### The metafield writes of src/index.js

`setShopPrizeCounts` and `incrementPrizeDistribution` write a shop
metafield whose payload is exactly `{ id, value, type: 'json' }`, the
value being the JSON object of per-prize counts. -/

/-- The full payload of a counts/distribution metafield write in
src/index.js: an id, the JSON object (prize id ↦ count, `none` for the
JSON `null` of an unbounded prize), and the type tag. -/
structure MetafieldWrite where
  id : Nat
  value : List (String × Option Int)
  type : String
deriving Repr, DecidableEq

/-- src/index.js `setShopPrizeCounts(countObj, metafieldId)`. -/
def setShopPrizeCounts (countObj : List (String × Option Int))
    (metafieldId : Nat) : MetafieldWrite :=
  ⟨metafieldId, countObj, "json"⟩

/-- JS property read on an object literal modelled as an ordered
association list. -/
def objGet (obj : List (String × Option Int)) (k : String) :
    Option (Option Int) :=
  (obj.find? (fun kv => kv.1 == k)).map Prod.snd

/-- JS property assignment: overwrite in place, or append a new key. -/
def objSet (obj : List (String × Option Int)) (k : String) (v : Option Int) :
    List (String × Option Int) :=
  if (obj.find? (fun kv => kv.1 == k)).isSome then
    obj.map (fun kv => if kv.1 == k then (kv.1, v) else kv)
  else obj ++ [(k, v)]

/-- `(distribution[prizeId] || 0)`: missing, `null` and `0` all give `0`
(for a stored `0` the JS falsiness coincides with returning the value). -/
def jsOrZero (v : Option (Option Int)) : Int :=
  match v with
  | some (some n) => n
  | some none => 0
  | none => 0

/-- src/index.js `incrementPrizeDistribution`: bump the per-prize counter
inside the distribution JSON and write the metafield back; returns the
write payload and the post-increment counter it reports. -/
def incrementPrizeDistribution (prizeId : String) (mfId : Nat)
    (distribution : List (String × Option Int)) : MetafieldWrite × Int :=
  let newDist := objSet distribution prizeId
    (some (jsOrZero (objGet distribution prizeId) + 1))
  (⟨mfId, newDist, "json"⟩, jsOrZero (objGet newDist prizeId))

/-! ### Concrete data for witnesses

The hardcoded catalog of src/index.js, at its initial counts, with
synthesized metaobject handles. -/

/-- The uncapped consolation entry of the src/index.js catalog. -/
def betterLuck : Prize :=
  ⟨"better_luck", "Better Luck Next Time", 1/100, none, none, 0, "gid6", ""⟩

/-- The `PRIZES` array of src/index.js, as freshly initialised records. -/
def PRIZES : List Prize :=
  [⟨"kivo_easy_lite", "Kivo Easy Lite", 1/1000, some 1, some 1, 0, "gid1", ""⟩,
   ⟨"1gm_gold_coin", "1gm Gold Coin", 1/20, some 5, some 5, 0, "gid2", ""⟩,
   ⟨"free_helmet", "Free Helmet Rs.2000", 33/100, some 20, some 20, 0, "gid3", ""⟩,
   ⟨"mobile_holder", "Mobile Holder", 3/10, some 20, some 20, 0, "gid4", ""⟩,
   ⟨"water_bottle", "Water Bottle + Cap", 3/10, some 20, some 20, 0, "gid5", ""⟩,
   betterLuck]

/-- `initialDistribution` of src/index.js: every prize at `0`. -/
def initialDistribution : List (String × Option Int) :=
  PRIZES.map (fun p => (p.id, some 0))

/-- A customer whose persisted marker and recorded outcome are set, as
`addPrizeToCustomer` leaves them. -/
def demoPlayedCustomer : Customer :=
  ⟨1001,
   "Spin Prize: 1gm Gold Coin, Spin Date: 2025-01-15, Prize Number: 3, wheel_prize:1gm_gold_coin, wheel_played",
   ""⟩

/-- A capped prize whose stock is exhausted. -/
def goldDepleted : Prize :=
  ⟨"gold", "Gold", 1/2, some 2, some 0, 2, "gidA", ""⟩

/-- A second exhausted capped prize. -/
def silverDepleted : Prize :=
  ⟨"silver", "Silver", 1/2, some 3, some 0, 3, "gidB", ""⟩

/-- A catalog with every capped prize depleted and no uncapped entry:
the fallback branch of the draw applies, and no `better_luck` id exists. -/
def depletedCatalog : List Prize :=
  [goldDepleted, silverDepleted]

/-! ### Supporting lemmas -/

theorem getLast?_cons_eq (a : Prize) (l : List Prize) :
    (a :: l).getLast? = some (l.getLastD a) := by
  rw [List.getLast?_eq_getLast (a :: l) (List.cons_ne_nil a l),
    List.getLast_eq_getLastD]

theorem totalProb_foldl (l : List Prize) (s : ℚ) :
    l.foldl (fun t p => t + p.prob) s = s + (l.map Prize.prob).sum := by
  induction l generalizing s with
  | nil => simp
  | cons p rest ih => simp [ih, add_assoc]

theorem totalProb_eq_sum (l : List Prize) :
    totalProb l = (l.map Prize.prob).sum := by
  simp [totalProb, totalProb_foldl]

theorem selectLoop_eq_find (r : ℚ) (d : Prize) :
    ∀ (l : List Prize) (acc : ℚ),
      selectLoop r acc d l
        = (((cumFrom acc l).find? (fun pc => decide (r ≤ pc.2))).map Prod.fst).getD d
  | [], acc => by simp [selectLoop, cumFrom]
  | p :: rest, acc => by
    by_cases h : r ≤ acc + p.prob
    · simp [selectLoop, cumFrom, List.find?_cons, h]
    · simp [selectLoop, cumFrom, List.find?_cons, h,
        selectLoop_eq_find r d rest (acc + p.prob)]

theorem selectLoop_mem (r : ℚ) (d : Prize) :
    ∀ (l : List Prize) (acc : ℚ),
      selectLoop r acc d l = d ∨ selectLoop r acc d l ∈ l
  | [], acc => Or.inl rfl
  | p :: rest, acc => by
    by_cases h : r ≤ acc + p.prob
    · right
      simp [selectLoop, h]
    · rcases selectLoop_mem r d rest (acc + p.prob) with h2 | h2
      · left
        simpa [selectLoop, h] using h2
      · right
        simp only [selectLoop, if_neg h]
        exact List.mem_cons_of_mem p h2

theorem mem_availableOf (cat : List Prize) (x : Prize)
    (hx : x ∈ availableOf cat) : x ∈ cat ∧ isAvailable x = true :=
  List.mem_filter.mp hx

theorem mem_of_drawChosen (cat : List Prize) (u : ℚ) (chosen : Prize)
    (h : drawChosen cat u = some chosen) : chosen ∈ availableOf cat := by
  unfold drawChosen at h
  cases hA : availableOf cat with
  | nil => rw [hA] at h; exact absurd h (by simp)
  | cons a rest =>
    rw [hA] at h
    simp only [Option.some.injEq] at h
    rcases selectLoop_mem (u * totalProb (a :: rest)) (rest.getLastD a)
        (a :: rest) 0 with h2 | h2
    · rw [← h, h2]
      exact List.getLastD_mem_cons rest a
    · rw [← h]
      exact h2

theorem isAvailable_of_drawChosen (cat : List Prize) (u : ℚ) (chosen : Prize)
    (h : drawChosen cat u = some chosen) : isAvailable chosen = true :=
  (mem_availableOf cat chosen (mem_of_drawChosen cat u chosen h)).2

theorem applyAward_total (now : String) (p : Prize) :
    (applyAward now p).totalDistributed = p.totalDistributed + 1 := by
  cases hr : p.remaining <;> simp [applyAward, hr]

theorem applyAward_remaining (now : String) (p : Prize) :
    (applyAward now p).remaining = p.remaining.map (fun n => max 0 (n - 1)) := by
  cases hr : p.remaining <;> simp [applyAward, hr]

theorem drawChosen_eq_none (cat : List Prize) (u : ℚ)
    (hA : availableOf cat = []) : drawChosen cat u = none := by
  simp [drawChosen, hA]

/-! ### Claim theorems -/

/-- C1: when the persisted played-marker is present, `spin` replies
`alreadyPlayed = true` with the outcome recorded in the customer's tags
(label, date, number, or the `Already Played` default when no outcome tag
survives), and the catalog comes back unchanged: no prize's remaining
count and no totalDistributed counter moves on that call. -/
theorem spin_alreadyPlayed_frame (phoneRaw : Option String) (c : Customer)
    (cat : List Prize) (u : ℚ) (now : String)
    (hphone : jsTrim (phoneRaw.getD "") ≠ "")
    (hplayed : hasPlayedWheel c = true) :
    spin phoneRaw (some c) cat u now
      = some (SpinResult.alreadyPlayed
          ((getPrizeFromTags c).getD ⟨"Already Played", none, none⟩), cat) := by
  simp [spin, hphone, hplayed]

/-- Witness for C1 at a concrete played customer. -/
theorem spin_alreadyPlayed_frame_witness :
    spin (some "9876543210") (some demoPlayedCustomer) PRIZES 0 "2025-01-16"
      = some (SpinResult.alreadyPlayed
          ⟨"1gm Gold Coin", some "2025-01-15", some "3"⟩, PRIZES) := by
  rw [spin_alreadyPlayed_frame (some "9876543210") demoPlayedCustomer PRIZES 0
    "2025-01-16" (by decide) (by decide)]
  rfl

/-- C2: with a non-empty available subset, the draw takes `total` as the
sum of the weights of the available subset only, forms `r = u * total`
from the uniform sample `u` (so `r` lies in `[0, total)` whenever
`0 ≤ u < 1` and the weights are positive), and the loop selects the first
available entry in catalog order whose cumulative weight is `≥ r`,
falling back deterministically to the last available entry when no entry
satisfies the test (`chooseWeightedSpec` is the spec-worded selector). -/
theorem weightedDraw_spec (cat : List Prize) (u : ℚ) (now : String)
    (h : availableOf cat ≠ []) :
    totalProb (availableOf cat) = ((availableOf cat).map Prize.prob).sum
    ∧ (0 ≤ u → u < 1 → 0 < totalProb (availableOf cat) →
        0 ≤ u * totalProb (availableOf cat)
        ∧ u * totalProb (availableOf cat) < totalProb (availableOf cat))
    ∧ drawChosen cat u
        = chooseWeightedSpec (availableOf cat) (u * totalProb (availableOf cat))
    ∧ spinDraw cat u now = (drawChosen cat u).map (fun chosen =>
        (SpinResult.won (some chosen.id) chosen.label (chosen.totalDistributed + 1),
         awardPrize cat chosen.metaobjectId now)) := by
  refine ⟨totalProb_eq_sum _, fun h0 h1 hpos => ?_, ?_, ?_⟩
  · exact ⟨mul_nonneg h0 (le_of_lt hpos),
      by simpa using mul_lt_mul_of_pos_right h1 hpos⟩
  · cases hA : availableOf cat with
    | nil => exact absurd hA h
    | cons a rest =>
      simp only [drawChosen, hA, chooseWeightedSpec,
        selectLoop_eq_find (u * totalProb (a :: rest)) (rest.getLastD a)
          (a :: rest) 0]
      cases hf : (cumFrom 0 (a :: rest)).find?
          (fun pc => decide (u * totalProb (a :: rest) ≤ pc.2)) with
      | none => simp [hf, getLast?_cons_eq]
      | some pc => simp [hf]
  · cases hd : drawChosen cat u with
    | none =>
      exact absurd hd (by
        unfold drawChosen
        cases hA : availableOf cat with
        | nil => exact absurd hA h
        | cons a rest => simp)
    | some chosen => simp [spinDraw, hd]

/-- Witness for C2 on the initial src/index.js catalog with `u = 0`. -/
theorem weightedDraw_spec_witness :
    availableOf PRIZES ≠ []
    ∧ (totalProb (availableOf PRIZES) = ((availableOf PRIZES).map Prize.prob).sum
       ∧ (0 ≤ (0 : ℚ) → (0 : ℚ) < 1 → 0 < totalProb (availableOf PRIZES) →
           0 ≤ 0 * totalProb (availableOf PRIZES)
           ∧ 0 * totalProb (availableOf PRIZES) < totalProb (availableOf PRIZES))
       ∧ drawChosen PRIZES 0
           = chooseWeightedSpec (availableOf PRIZES) (0 * totalProb (availableOf PRIZES))
       ∧ spinDraw PRIZES 0 "t0" = (drawChosen PRIZES 0).map (fun chosen =>
           (SpinResult.won (some chosen.id) chosen.label (chosen.totalDistributed + 1),
            awardPrize PRIZES chosen.metaobjectId "t0"))) :=
  ⟨by decide, weightedDraw_spec PRIZES 0 "t0" (by decide)⟩

/-- C3: an award clamps the remaining counter with a floor of 0, so it
never becomes negative; a prize whose remaining count is 0 is excluded
from the available subset and the weighted draw only ever returns an
available prize, so it never selects a prize with remaining 0. -/
theorem depleted_never_selected (p q : Prize) (now : String)
    (cat : List Prize) (u : ℚ)
    (hq : q ∈ cat) (hq0 : q.remaining = some 0) :
    (applyAward now p).remaining = p.remaining.map (fun n => max 0 (n - 1))
    ∧ (∀ m, (applyAward now p).remaining = some m → 0 ≤ m)
    ∧ q ∉ availableOf cat
    ∧ (∀ chosen, drawChosen cat u = some chosen →
        isAvailable chosen = true ∧ chosen.remaining ≠ some 0) := by
  refine ⟨applyAward_remaining now p, ?_, ?_, ?_⟩
  · intro m hm
    rw [applyAward_remaining now p] at hm
    cases hr : p.remaining with
    | none => rw [hr] at hm; simp at hm
    | some n =>
      rw [hr] at hm
      have hmm : max 0 (n - 1) = m := by simpa using hm
      rw [← hmm]
      exact le_max_left 0 (n - 1)
  · intro hmem
    have h2 := (mem_availableOf cat q hmem).2
    rw [isAvailable, hq0] at h2
    simp at h2
  · intro chosen hc
    have hav := isAvailable_of_drawChosen cat u chosen hc
    refine ⟨hav, fun h0 => ?_⟩
    rw [isAvailable, h0] at hav
    simp at hav

/-- Witness for C3 at a depleted concrete prize. -/
theorem depleted_never_selected_witness :
    goldDepleted ∈ depletedCatalog ∧ goldDepleted.remaining = some 0
    ∧ ((applyAward "t0" goldDepleted).remaining
          = goldDepleted.remaining.map (fun n => max 0 (n - 1))
       ∧ (∀ m, (applyAward "t0" goldDepleted).remaining = some m → 0 ≤ m)
       ∧ goldDepleted ∉ availableOf depletedCatalog
       ∧ (∀ chosen, drawChosen depletedCatalog 0 = some chosen →
           isAvailable chosen = true ∧ chosen.remaining ≠ some 0)) :=
  ⟨by simp [depletedCatalog], rfl,
   depleted_never_selected goldDepleted goldDepleted "t0" depletedCatalog 0
     (by simp [depletedCatalog]) rfl⟩

/-- C4: an award bumps the chosen prize's totalDistributed by exactly 1,
unconditionally — the capped and uncapped branches of
`updatePrizeAfterSpin` both increment — and the catalog-level write
leaves every other prize's totalDistributed unchanged. -/
theorem award_increments_exactly_chosen (cat : List Prize) (p : Prize)
    (moId : String) (now : String) :
    (applyAward now p).totalDistributed = p.totalDistributed + 1
    ∧ (awardPrize cat moId now).map Prize.totalDistributed
        = cat.map (fun q => if q.metaobjectId = moId
            then q.totalDistributed + 1 else q.totalDistributed) := by
  refine ⟨applyAward_total now p, ?_⟩
  rw [awardPrize, List.map_map]
  refine List.map_congr_left (fun q hq => ?_)
  by_cases h : q.metaobjectId = moId
  · simp [h, applyAward_total]
  · simp [h]

/-- C5: with the available subset empty, the handler takes the fallback
branch: it selects the entry designated by the id `better_luck` (the
catalog's uncapped consolation entry by convention) and, when no such
entry exists, the last catalog entry; the branch ignores the random
sample entirely, and the selected entry's totalDistributed increments. -/
theorem fallback_branch_spec (cat : List Prize) (u v : ℚ) (now : String)
    (hcat : cat ≠ []) (hempty : availableOf cat = []) :
    (∃ fb, fallbackPrize cat = some fb
      ∧ (cat.find? (fun p => p.id == "better_luck") = none →
          cat.getLast? = some fb)
      ∧ spinDraw cat u now
          = some (SpinResult.won none fb.label (fb.totalDistributed + 1),
                  awardPrize cat fb.metaobjectId now)
      ∧ (applyAward now fb).totalDistributed = fb.totalDistributed + 1)
    ∧ spinDraw cat u now = spinDraw cat v now := by
  have hdu := drawChosen_eq_none cat u hempty
  have hdv := drawChosen_eq_none cat v hempty
  have hfb : ∃ fb, fallbackPrize cat = some fb := by
    cases hf : cat.find? (fun p => p.id == "better_luck") with
    | some fb => exact ⟨fb, by simp [fallbackPrize, hf]⟩
    | none =>
      cases cat with
      | nil => exact absurd rfl hcat
      | cons a l =>
        exact ⟨l.getLastD a, by simp [fallbackPrize, hf, getLast?_cons_eq]⟩
  rcases hfb with ⟨fb, hfb⟩
  refine ⟨⟨fb, hfb, ?_, ?_, applyAward_total now fb⟩, ?_⟩
  · intro hnone
    rw [fallbackPrize, hnone] at hfb
    exact hfb
  · simp [spinDraw, hdu, hfb]
  · simp [spinDraw, hdu, hdv]

/-- Witness for C5 on a fully depleted catalog without a `better_luck`
entry. -/
theorem fallback_branch_spec_witness :
    depletedCatalog ≠ [] ∧ availableOf depletedCatalog = []
    ∧ ((∃ fb, fallbackPrize depletedCatalog = some fb
        ∧ (depletedCatalog.find? (fun p => p.id == "better_luck") = none →
            depletedCatalog.getLast? = some fb)
        ∧ spinDraw depletedCatalog 0 "t0"
            = some (SpinResult.won none fb.label (fb.totalDistributed + 1),
                    awardPrize depletedCatalog fb.metaobjectId "t0")
        ∧ (applyAward "t0" fb).totalDistributed = fb.totalDistributed + 1)
       ∧ spinDraw depletedCatalog 0 "t0" = spinDraw depletedCatalog 1 "t0") :=
  ⟨by decide, by decide,
   fallback_branch_spec depletedCatalog 0 1 "t0" (by decide) (by decide)⟩

/-- C6: the reset endpoint writes every prize's remaining back to its cap
(the `-1` sentinel for uncapped entries reads back as the absent case),
does not touch totalDistributed, and is idempotent: resetting an already
reset catalog yields identical stats. -/
theorem resetInventory_spec (cat : List Prize) (t1 t2 : String) :
    (resetInventory cat t1).map Prize.remaining = cat.map Prize.max
    ∧ (resetInventory cat t1).map Prize.totalDistributed
        = cat.map Prize.totalDistributed
    ∧ statsOf (resetInventory (resetInventory cat t1) t2)
        = statsOf (resetInventory cat t1) := by
  refine ⟨?_, ?_, ?_⟩
  · rw [resetInventory, List.map_map]
    exact List.map_congr_left (fun p hp => rfl)
  · rw [resetInventory, List.map_map]
    exact List.map_congr_left (fun p hp => rfl)
  · simp only [statsOf, resetInventory, List.map_map]
    exact List.map_congr_left (fun p hp => rfl)

/-- C7: a catalog containing an uncapped prize always has a non-empty
available subset, so `spin` (with the gate passed) takes the weighted
draw branch and returns a concrete prize. -/
theorem uncapped_always_wins (phoneRaw : Option String) (cat : List Prize)
    (p : Prize) (u : ℚ) (now : String)
    (hphone : jsTrim (phoneRaw.getD "") ≠ "")
    (hp : p ∈ cat) (hrem : p.remaining = none) :
    availableOf cat ≠ []
    ∧ ∃ pid plabel pnum cat2,
        spin phoneRaw none cat u now
          = some (SpinResult.won (some pid) plabel pnum, cat2) := by
  have hav : p ∈ availableOf cat :=
    List.mem_filter.mpr ⟨hp, by simp [isAvailable, hrem]⟩
  have hne : availableOf cat ≠ [] := List.ne_nil_of_mem hav
  refine ⟨hne, ?_⟩
  have hspin : spin phoneRaw none cat u now = spinDraw cat u now := by
    simp [spin, hphone]
  cases hd : drawChosen cat u with
  | none =>
    exact absurd hd (by
      unfold drawChosen
      cases hA : availableOf cat with
      | nil => exact absurd hA hne
      | cons a rest => simp)
  | some chosen =>
    exact ⟨chosen.id, chosen.label, chosen.totalDistributed + 1,
      awardPrize cat chosen.metaobjectId now, by rw [hspin]; simp [spinDraw, hd]⟩

/-- Witness for C7 on the src/index.js catalog, whose `better_luck` entry
is uncapped. -/
theorem uncapped_always_wins_witness :
    jsTrim ((some "5551234").getD "") ≠ "" ∧ betterLuck ∈ PRIZES
    ∧ betterLuck.remaining = none
    ∧ (availableOf PRIZES ≠ []
       ∧ ∃ pid plabel pnum cat2,
           spin (some "5551234") none PRIZES 0 "t0"
             = some (SpinResult.won (some pid) plabel pnum, cat2)) :=
  ⟨by decide, by simp [PRIZES], rfl,
   uncapped_always_wins (some "5551234") PRIZES betterLuck 0 "t0"
     (by decide) (by simp [PRIZES]) rfl⟩

/-- C8: a phone that is missing or trims to the empty string is rejected
with the 400 `phone required` error; the result is this constant for
every customer-lookup result and every catalog, and the catalog comes
back untouched — the rejection precedes every collaborator interaction. -/
theorem empty_phone_validation (phoneRaw : Option String)
    (lookup : Option Customer) (cat : List Prize) (u : ℚ) (now : String)
    (h : jsTrim (phoneRaw.getD "") = "") :
    spin phoneRaw lookup cat u now
      = some (SpinResult.validationError "phone required", cat) := by
  simp [spin, h]

/-- Witness for C8 with an all-whitespace phone. -/
theorem empty_phone_validation_witness :
    jsTrim ((some "   ").getD "") = ""
    ∧ spin (some "   ") (some demoPlayedCustomer) PRIZES 0 "t0"
        = some (SpinResult.validationError "phone required", PRIZES) :=
  ⟨by decide,
   empty_phone_validation (some "   ") (some demoPlayedCustomer) PRIZES 0 "t0"
     (by decide)⟩

/-- C9, counterexample to the claim as stated: in the src/index.js
variant the inventory-counter writes carry no timestamp.  The payload of
`incrementPrizeDistribution` (the totalDistributed increment applied on
an award) is exactly `{ id, value, type }` whose value holds only
per-prize counters, and the same holds for `setShopPrizeCounts` (the
remaining decrement): no last-updated field appears anywhere in the
written record. -/
theorem metafield_write_no_timestamp :
    (incrementPrizeDistribution "better_luck" 7 initialDistribution).1
      = ⟨7, [("kivo_easy_lite", some 0), ("1gm_gold_coin", some 0),
             ("free_helmet", some 0), ("mobile_holder", some 0),
             ("water_bottle", some 0), ("better_luck", some 1)], "json"⟩
    ∧ (((incrementPrizeDistribution "better_luck" 7 initialDistribution).1.value.map
          Prod.fst).contains "last_updated") = false
    ∧ (((setShopPrizeCounts (PRIZES.map (fun p => (p.id, p.max))) 9).value.map
          Prod.fst).contains "last_updated") = false := by
  refine ⟨?_, ?_, ?_⟩ <;> decide

/-- C9, amended: in the metaobject-backed variant every inventory-counter
write stamps `last_updated` — both the per-award update list built by
`updatePrizeAfterSpin` and the per-prize reset write contain the stamp. -/
theorem metaobject_writes_stamp_timestamp (p : Prize) (now : String) :
    ("last_updated", now) ∈ updatesAfterSpin now p
    ∧ ("last_updated", now) ∈ resetWriteFields p now := by
  constructor
  · cases hr : p.remaining <;> simp [updatesAfterSpin, hr]
  · simp [resetWriteFields]

/-- C10: the admin gate is a strict equality test of the supplied key
against the configured environment value; when both sides are absent the
mismatch check passes and the operation proceeds with no credential, and
`Unauthorized` results exactly when the supplied key differs from the
configured value. -/
theorem adminGate_spec (cat : List Prize) (now : String) :
    resetPrizesEndpoint none none cat now = Except.ok (resetInventory cat now)
    ∧ statsEndpoint none none cat = Except.ok (statsOf cat)
    ∧ ∀ supplied configured : Option String,
        resetPrizesEndpoint supplied configured cat now
          = (if supplied = configured then Except.ok (resetInventory cat now)
             else Except.error "Unauthorized")
        ∧ statsEndpoint supplied configured cat
          = (if supplied = configured then Except.ok (statsOf cat)
             else Except.error "Unauthorized") := by
  refine ⟨by simp [resetPrizesEndpoint], by simp [statsEndpoint],
    fun supplied configured => ⟨?_, ?_⟩⟩
  · by_cases h : supplied = configured <;> simp [resetPrizesEndpoint, h]
  · by_cases h : supplied = configured <;> simp [statsEndpoint, h]

end WheelSpin
